import Mathlib

/-!
Verification development for the parknav MCP server (mcp-server.ts).
The definitions below are a shallow embedding of the server's helper
functions and tool handlers: pure helpers become Lean functions, the
database is explicit state (a list of rows), and each tool handler is a
function from its inputs (with network responses and statement-failure
points as parameters) to the trace of database operations it performs
plus its response envelope.
-/

set_option maxRecDepth 4000

namespace ParkNav

/-! ## extractRate: regex \$(\d+(\.\d{1,2})?)\/hr over a snippet

`snippet.match(/\$(\d+(\.\d{1,2})?)\/hr/)` finds the leftmost position
where the pattern matches; within a position the digit runs are forced
(backtracking cannot shorten `\d+`, since a shorter run leaves a digit
where `.` or `/` is required, and the `\d{1,2}` group must consume the
whole digit run after the dot, since otherwise a digit sits where `/`
is required).  `parseFloat` of the captured group is the integer part
plus the decimal digits over the matching power of ten. -/

def digitVal (c : Char) : ℕ := c.toNat - Char.toNat '0'

def digitsToNat (ds : List Char) : ℕ :=
  ds.foldl (fun a c => 10 * a + digitVal c) 0

/-- Value of a captured group "D" or "D.E" under parseFloat. -/
def capValue (ds es : List Char) : ℚ :=
  (digitsToNat ds : ℚ) + (digitsToNat es : ℚ) / (10 : ℚ) ^ es.length

/-- Does the list start with the literal characters "/hr"? -/
def isHr : List Char → Bool
  | a :: b :: c :: _ => a = '/' ∧ b = 'h' ∧ c = 'r'
  | _ => false

/-- Attempt of the rate regex at one fixed start position; returns the
integer digits and the decimal digits of the capture on success. -/
def rateMatchAt : List Char → Option (List Char × List Char)
  | [] => none
  | c :: rest =>
    if c = '$' then
      let ds := rest.takeWhile Char.isDigit
      let rest1 := rest.dropWhile Char.isDigit
      if ds = [] then none
      else if rest1.head? = some '.' then
        let rest2 := rest1.tail
        let es := rest2.takeWhile Char.isDigit
        let rest3 := rest2.dropWhile Char.isDigit
        if (es.length = 1 ∨ es.length = 2) ∧ isHr rest3 = true then
          some (ds, es)
        else none
      else if isHr rest1 = true then some (ds, []) else none
    else none

/-- Leftmost-position scan of the rate regex, as the JS regex engine does. -/
def extractRateCore : List Char → Option (List Char × List Char)
  | [] => none
  | c :: rest =>
    match rateMatchAt (c :: rest) with
    | some m => some m
    | none => extractRateCore rest

/-- extractRate(snippet) from mcp-server.ts. -/
def extractRate (s : String) : Option ℚ :=
  (extractRateCore s.data).map (fun m => capValue m.1 m.2)

/-- A well-formed capture: nonempty digit run, optionally one or two
decimal digits (the shape `N` of a `$N/hr` substring in the claim). -/
def goodCap (ds es : List Char) : Prop :=
  ds ≠ [] ∧ (∀ c ∈ ds, Char.isDigit c = true) ∧
    (es = [] ∨ ((es.length = 1 ∨ es.length = 2) ∧ ∀ c ∈ es, Char.isDigit c = true))

/-- The capture as written in the snippet: "D" or "D.E". -/
def capChars (ds es : List Char) : List Char :=
  ds ++ (if es = [] then [] else '.' :: es)

/-- The rate pattern has an occurrence starting exactly here. -/
def rateDecompAt (t : List Char) : Prop :=
  ∃ ds es post, goodCap ds es ∧
    t = '$' :: capChars ds es ++ '/' :: 'h' :: 'r' :: post

/-- The snippet contains a substring of the form `$N/hr`. -/
def RateSub (s : List Char) : Prop :=
  ∃ t, t <:+ s ∧ rateDecompAt t

/-! ## extractHours: regex /Open\s([\d\s\w\-:]+)/ plus .trim() -/

/-- Whitespace as matched by `\s` (the ASCII range used here). -/
def isJsWhitespace (c : Char) : Bool :=
  c = ' ' ∨ c = '\t' ∨ c = '\n' ∨ c = '\r'

/-- `\w` = [A-Za-z0-9_]. -/
def isWordChar (c : Char) : Bool :=
  Char.isAlpha c ∨ Char.isDigit c ∨ c = '_'

/-- Character class [\d\s\w\-:]. -/
def isHoursChar (c : Char) : Bool :=
  Char.isDigit c || isJsWhitespace c || isWordChar c || c = '-' || c = ':'

/-- Attempt of the hours regex at one fixed start position: the literal
"Open", one whitespace, then a maximal nonempty class run (nothing
follows the group, so the greedy run is final). -/
def hoursMatchAt : List Char → Option (List Char)
  | 'O' :: 'p' :: 'e' :: 'n' :: c :: rest =>
    if isJsWhitespace c then
      let run := rest.takeWhile isHoursChar
      if run = [] then none else some run
    else none
  | _ => none

/-- Leftmost-position scan of the hours regex. -/
def extractHoursCore : List Char → Option (List Char)
  | [] => none
  | c :: rest =>
    match hoursMatchAt (c :: rest) with
    | some m => some m
    | none => extractHoursCore rest

/-- String.prototype.trim on the captured group. -/
def trimChars (l : List Char) : List Char :=
  ((l.dropWhile isJsWhitespace).reverse.dropWhile isJsWhitespace).reverse

/-- extractHours(snippet) from mcp-server.ts. -/
def extractHours (s : String) : Option String :=
  (extractHoursCore s.data).map (fun l => String.mk (trimChars l))

/-! ## Search payloads and parseParkingDetails

A SerpApi place entry: each field may be absent (JS `undefined`). -/

structure Place where
  title : Option String
  address : Option String
  snippet : Option String
  link : Option String
deriving DecidableEq

/-- The raw SerpApi payload: `places_results` may be absent. -/
structure SearchPayload where
  places_results : Option (List Place)
deriving DecidableEq

/-- The per-place record built by parseParkingDetails. -/
structure ParkingInfo where
  name : Option String
  address : Option String
  hourlyRate : Option ℚ
  hours : Option String
  neighborhood : String
  sourceUrl : Option String
deriving DecidableEq

/-- The mapping applied to one place.  When `snippet` is absent,
`snippet.match(...)` inside extractRate throws a TypeError, modelled as
`Except.error ()`. -/
def parsePlace (nb : String) (p : Place) : Except Unit ParkingInfo :=
  match p.snippet with
  | none => Except.error ()
  | some s =>
    Except.ok
      { name := p.title
        address := p.address
        hourlyRate := extractRate s
        hours := extractHours s
        neighborhood := nb
        sourceUrl := p.link }

/-- `places_results.map(...)`: the JS map runs left to right and the
first thrown error aborts the whole map. -/
def parsePlaces (nb : String) : List Place → Except Unit (List ParkingInfo)
  | [] => Except.ok []
  | p :: rest =>
    match parsePlace nb p with
    | Except.error e => Except.error e
    | Except.ok c =>
      match parsePlaces nb rest with
      | Except.error e => Except.error e
      | Except.ok cs => Except.ok (c :: cs)

/-- parseParkingDetails(raw, neighborhood): falsy `raw` or absent
`places_results` yields the empty list. -/
def parseParkingDetails (raw : Option SearchPayload) (nb : String) :
    Except Unit (List ParkingInfo) :=
  match raw with
  | none => Except.ok []
  | some payload =>
    match payload.places_results with
    | none => Except.ok []
    | some places => parsePlaces nb places

/-! ## The saveParkingInfo tool handler

The handler's observable database actions, in order.  `insertCandidate`
is one parameterised INSERT ... ON CONFLICT (source_url) DO UPDATE
statement against seattle_parking. -/

inductive SaveStep
  | connect
  | beginTx
  | insertCandidate (c : ParkingInfo)
  | commitTx
  | rollbackTx
  | release
deriving DecidableEq

/-- The response envelope of saveParkingInfo.  `noData nb` is the text
"No parking data found for <nb>."; `saved n nb` is "Successfully saved
<n> parking spots for <nb>."; `errorEnvelope` is the catch-block text
"An error occurred while saving parking data: <message>". -/
inductive SaveOutcome
  | noData (neighborhood : String)
  | saved (count : ℕ) (neighborhood : String)
  | errorEnvelope
deriving DecidableEq

/-- One run of the saveParkingInfo handler.  `raw` is the (possibly
null) SerpApi response; `failAt = some i` injects a statement error at
the i-th INSERT of the loop.  Faithful to the source: on a thrown
insert error the catch block returns the error envelope without
issuing ROLLBACK and without releasing the client. -/
def saveParkingInfoRun (raw : Option SearchPayload) (nb : String)
    (failAt : Option ℕ) : List SaveStep × SaveOutcome :=
  match parseParkingDetails raw nb with
  | Except.error _ => ([], SaveOutcome.errorEnvelope)
  | Except.ok parsed =>
    if parsed.length = 0 then ([], SaveOutcome.noData nb)
    else
      match failAt with
      | some i =>
        if i < parsed.length then
          ([SaveStep.connect, SaveStep.beginTx] ++
             (parsed.take i).map SaveStep.insertCandidate,
           SaveOutcome.errorEnvelope)
        else
          ([SaveStep.connect, SaveStep.beginTx] ++
             parsed.map SaveStep.insertCandidate ++
             [SaveStep.commitTx, SaveStep.release],
           SaveOutcome.saved parsed.length nb)
      | none =>
        ([SaveStep.connect, SaveStep.beginTx] ++
           parsed.map SaveStep.insertCandidate ++
           [SaveStep.commitTx, SaveStep.release],
         SaveOutcome.saved parsed.length nb)

/-! ## GeoJSON features and the enriched_parking pipeline

A GeoJSON geometry as consulted by the loop: only the `type` string and
the truthiness/contents of `coordinates` matter (for non-Point types
the nested coordinate arrays are irrelevant, so plain number lists
suffice to model presence). -/

structure Geometry where
  type : String
  coordinates : Option (List ℚ)
deriving DecidableEq

/-- A feature from osmtogeojson: id, tag properties, optional geometry. -/
structure Feature where
  id : Int
  properties : List (String × String)
  geometry : Option Geometry
deriving DecidableEq

/-- A row of enriched_parking (minus the SERIAL surrogate key). -/
structure EnrichedRecord where
  overpass_id : Int
  latitude : Option ℚ
  longitude : Option ℚ
  name : Option String
  amenity : Option String
  source : String
  retrieved_at : String
  confidence : ℚ
  other_tags : List (String × String)
deriving DecidableEq

/-- First value for a property key (JS object field access). -/
def lookupTag (props : List (String × String)) (key : String) : Option String :=
  (props.find? (fun kv => kv.1 = key)).map (fun kv => kv.2)

/-- Models the JS expression `v || null`: the empty string is falsy. -/
def orNull : Option String → Option String
  | some s => if s = "" then none else some s
  | none => none

/-- The body of the feature loop in fetchOverpassData: skip when the
geometry is absent, not of type Point, or has absent coordinates;
otherwise destructure `[longitude, latitude]`, split off name/amenity,
and keep the residual tags wholesale. -/
def featureToRecord (source retrievedAt : String) (confidence : ℚ)
    (f : Feature) : Option EnrichedRecord :=
  match f.geometry with
  | none => none
  | some g =>
    if g.type = "Point" then
      match g.coordinates with
      | none => none
      | some coords =>
        some
          { overpass_id := f.id
            latitude := coords.get? 1
            longitude := coords.get? 0
            name := orNull (lookupTag f.properties "name")
            amenity := orNull (lookupTag f.properties "amenity")
            source := source
            retrieved_at := retrievedAt
            confidence := confidence
            other_tags :=
              f.properties.filter
                (fun kv => decide (kv.1 ≠ "name" ∧ kv.1 ≠ "amenity")) }
    else none

/-- The records the loop attempts to insert, in order. -/
def normalizeGeospatial (source retrievedAt : String) (confidence : ℚ)
    (fs : List Feature) : List EnrichedRecord :=
  fs.filterMap (featureToRecord source retrievedAt confidence)

/-- INSERT ... ON CONFLICT (overpass_id) DO UPDATE: overwrite the row
with the matching key wholesale, else append a new row. -/
def upsertRecord (table : List EnrichedRecord) (r : EnrichedRecord) :
    List EnrichedRecord :=
  if r.overpass_id ∈ table.map EnrichedRecord.overpass_id then
    table.map (fun x => if x.overpass_id = r.overpass_id then r else x)
  else table ++ [r]

/-- The whole insert loop against enriched_parking. -/
def upsertEnrichedFeatures (table : List EnrichedRecord)
    (rs : List EnrichedRecord) : List EnrichedRecord :=
  rs.foldl upsertRecord table

/-- Constant `source` of fetchOverpassData. -/
def overpassSourceUrl : String := "https://overpass-api.de/api/interpreter"

/-- Constant `confidence` of fetchOverpassData. -/
def overpassConfidence : ℚ := 95 / 100

/-! ## The fetchOverpassData tool handler -/

inductive FetchStep
  | connect
  | createTable
  | beginTx
  | insertFeature (r : EnrichedRecord)
  | commitTx
  | rollbackTx
  | release
deriving DecidableEq

/-- Response envelope of fetchOverpassData.  `success n` is the text
"✅ Successfully fetched and saved <n> parking spots to the database.";
`errorEnvelope` the catch-block text; `validationError` the protocol
rejection when the zod schema refuses the arguments (the handler never
runs). -/
inductive FetchOutcome
  | success (reportedCount : ℕ)
  | errorEnvelope
  | validationError
deriving DecidableEq

/-- One run of the fetchOverpassData handler body.  `fetchRes` is the
decoded osmtogeojson feature list, or an error for a failed/non-2xx
Overpass request; `failAt = some i` injects a statement error at the
i-th INSERT.  Faithful to the source: connect, then CREATE TABLE IF NOT
EXISTS, then the fetch; on any thrown error the catch issues ROLLBACK
and the finally block always releases the client; on success the
message reports `geojsonData.features.length`, not the number of rows
written. -/
def fetchOverpassRun (fetchRes : Except Unit (List Feature))
    (retrievedAt : String) (failAt : Option ℕ)
    (table : List EnrichedRecord) :
    List FetchStep × FetchOutcome × List EnrichedRecord :=
  match fetchRes with
  | Except.error _ =>
    ([FetchStep.connect, FetchStep.createTable, FetchStep.rollbackTx,
      FetchStep.release],
     FetchOutcome.errorEnvelope, table)
  | Except.ok fs =>
    let records := normalizeGeospatial overpassSourceUrl retrievedAt
      overpassConfidence fs
    match failAt with
    | some i =>
      if i < records.length then
        ([FetchStep.connect, FetchStep.createTable, FetchStep.beginTx] ++
           (records.take i).map FetchStep.insertFeature ++
           [FetchStep.rollbackTx, FetchStep.release],
         FetchOutcome.errorEnvelope, table)
      else
        ([FetchStep.connect, FetchStep.createTable, FetchStep.beginTx] ++
           records.map FetchStep.insertFeature ++
           [FetchStep.commitTx, FetchStep.release],
         FetchOutcome.success fs.length,
         upsertEnrichedFeatures table records)
    | none =>
      ([FetchStep.connect, FetchStep.createTable, FetchStep.beginTx] ++
         records.map FetchStep.insertFeature ++
         [FetchStep.commitTx, FetchStep.release],
       FetchOutcome.success fs.length,
       upsertEnrichedFeatures table records)

/-! ## zod validation of the fetchOverpassData arguments -/

/-- A JS number value: NaN, the infinities, or a finite value. -/
inductive JsNum
  | nan
  | posInf
  | negInf
  | fin (q : ℚ)
deriving DecidableEq

def JsNum.isNaN : JsNum → Bool
  | JsNum.nan => true
  | _ => false

/-- A JS argument value of some non-number or number type. -/
inductive JsVal
  | num (n : JsNum)
  | str (s : String)
  | boolean (b : Bool)
deriving DecidableEq

/-- `z.number()`: requires a present number that is not NaN; infinite
values pass (no `.finite()` refinement in the schema). -/
def zodNumber : Option JsVal → Except Unit JsNum
  | some (JsVal.num n) =>
    if n.isNaN then Except.error () else Except.ok n
  | some _ => Except.error ()
  | none => Except.error ()

/-- `z.number().default(d)`: an absent value becomes the default;
a present value goes through `z.number()` (no positivity check). -/
def zodNumberDefault (d : JsNum) : Option JsVal → Except Unit JsNum
  | none => Except.ok d
  | v => zodNumber v

/-- The schema { lat: z.number(), lon: z.number(),
radius: z.number().default(500) }. -/
def validateFetchOverpassArgs (lat lon radius : Option JsVal) :
    Except Unit (JsNum × JsNum × JsNum) :=
  match zodNumber lat with
  | Except.error _ => Except.error ()
  | Except.ok a =>
    match zodNumber lon with
    | Except.error _ => Except.error ()
    | Except.ok b =>
      match zodNumberDefault (JsNum.fin 500) radius with
      | Except.error _ => Except.error ()
      | Except.ok c => Except.ok (a, b, c)

/-- The full tool call: the framework runs the handler only when the
schema accepts the arguments; a rejected call performs no database or
network action at all. -/
def fetchOverpassCall (lat lon radius : Option JsVal)
    (fetchRes : Except Unit (List Feature)) (retrievedAt : String)
    (failAt : Option ℕ) (table : List EnrichedRecord) :
    List FetchStep × FetchOutcome × List EnrichedRecord :=
  match validateFetchOverpassArgs lat lon radius with
  | Except.error _ => ([], FetchOutcome.validationError, table)
  | Except.ok _ => fetchOverpassRun fetchRes retrievedAt failAt table

/-! ## The getParkingDataForFrontend tool handler -/

inductive GetStep
  | connect
  | selectAll
  | release
deriving DecidableEq

/-- A feature of the returned GeoJSON FeatureCollection: a Point whose
coordinates are `[longitude, latitude]` and whose properties are the
remaining row columns. -/
structure FrontendFeature where
  geometryType : String
  coordinates : List (Option ℚ)
  overpass_id : Int
  name : Option String
  amenity : Option String
  source : String
  retrieved_at : String
  confidence : ℚ
  other_tags : List (String × String)
deriving DecidableEq

/-- The row mapping inside getParkingDataForFrontend. -/
def rowToFrontendFeature (r : EnrichedRecord) : FrontendFeature :=
  { geometryType := "Point"
    coordinates := [r.longitude, r.latitude]
    overpass_id := r.overpass_id
    name := r.name
    amenity := r.amenity
    source := r.source
    retrieved_at := r.retrieved_at
    confidence := r.confidence
    other_tags := r.other_tags }

inductive GetOutcome
  | geojson (features : List FrontendFeature)
  | errorEnvelope
deriving DecidableEq

/-- One run of getParkingDataForFrontend: SELECT * and map each row to
a point feature; `queryFails` injects a statement error.  The finally
block always releases the client. -/
def getParkingDataForFrontendRun (table : List EnrichedRecord)
    (queryFails : Bool) : List GetStep × GetOutcome :=
  if queryFails then
    ([GetStep.connect, GetStep.release], GetOutcome.errorEnvelope)
  else
    ([GetStep.connect, GetStep.selectAll, GetStep.release],
     GetOutcome.geojson (table.map rowToFrontendFeature))

/-! ## Spec-side predicates and concrete inputs used in the theorems -/

/-- An argument value the schema `z.number()` accepts. -/
def acceptedNumberArg (v : Option JsVal) : Prop :=
  ∃ n, v = some (JsVal.num n) ∧ JsNum.isNaN n = false

/-- A SerpApi place with a rich snippet. -/
def placeLotA : Place :=
  { title := some "Lot A"
    address := some "1 Main St"
    snippet := some "Open 8am-6pm $5/hr"
    link := some "http://a" }

/-- A second SerpApi place with a rate-only snippet. -/
def placeLotB : Place :=
  { title := some "Lot B"
    address := some "2 Main St"
    snippet := some "$7/hr"
    link := some "http://b" }

/-- A place whose snippet is absent (JS `undefined`). -/
def placeNoSnippet : Place :=
  { title := some "Lot C"
    address := some "3 Main St"
    snippet := none
    link := some "http://c" }

/-- A place all of whose optional fields are absent except an empty
snippet: its parsed name, address, rate and hours are all null. -/
def blankPlace : Place :=
  { title := none, address := none, snippet := some "", link := none }

/-- The candidate parsed from `blankPlace`. -/
def blankCandidate : ParkingInfo :=
  { name := none, address := none, hourlyRate := none, hours := none
    neighborhood := "Fremont", sourceUrl := none }

/-- A payload with two parseable places. -/
def twoGoodPlacesPayload : SearchPayload :=
  { places_results := some [placeLotA, placeLotB] }

/-- A payload mixing a parseable place with a snippet-less one. -/
def mixedPayload : SearchPayload :=
  { places_results := some [placeLotA, placeNoSnippet] }

/-- A point-geometry parking feature. -/
def pointFeature : Feature :=
  { id := 1
    properties := [("name", "P1"), ("amenity", "parking"), ("fee", "yes")]
    geometry := some { type := "Point", coordinates := some [-122.3, 47.6] } }

/-- A second point-geometry parking feature. -/
def pointFeature2 : Feature :=
  { id := 2
    properties := []
    geometry := some { type := "Point", coordinates := some [-122.4, 47.7] } }

/-- A non-point (Polygon) parking feature, as produced for OSM ways. -/
def polygonFeature : Feature :=
  { id := 7
    properties := [("amenity", "parking")]
    geometry := some { type := "Polygon", coordinates := some [0] } }

/-- A snippet with two rate substrings of different values. -/
def cexSnippet : String := "$3/hr $12.50/hr"

/-- A snippet whose only rate substring is "$12.50/hr". -/
def rateSnippet : String := "Rate: $12.50/hr"

/-- An enriched row with key 1. -/
def recA : EnrichedRecord :=
  { overpass_id := 1, latitude := some 47, longitude := some (-122)
    name := none, amenity := some "parking", source := overpassSourceUrl
    retrieved_at := "t1", confidence := overpassConfidence, other_tags := [] }

/-- The same key as `recA` with different mutable fields. -/
def recA2 : EnrichedRecord :=
  { overpass_id := 1, latitude := some 48, longitude := some (-121)
    name := some "P", amenity := none, source := overpassSourceUrl
    retrieved_at := "t2", confidence := overpassConfidence
    other_tags := [("fee", "yes")] }

/-! ## Lemmas about the rate regex -/

theorem takeWhile_digits_append : ∀ (ds rest : List Char),
    (∀ c ∈ ds, Char.isDigit c = true) →
    (∀ c, rest.head? = some c → Char.isDigit c = false) →
    (ds ++ rest).takeWhile Char.isDigit = ds ∧
      (ds ++ rest).dropWhile Char.isDigit = rest
  | [], rest, _, h2 => by
    cases rest with
    | nil => simp
    | cons c r =>
      have hc := h2 c rfl
      simp [List.takeWhile_cons, List.dropWhile_cons, hc]
  | d :: ds, rest, h1, h2 => by
    have hd : Char.isDigit d = true := h1 d (List.mem_cons_self _ _)
    have ih := takeWhile_digits_append ds rest
      (fun c hc => h1 c (List.mem_cons_of_mem _ hc)) h2
    simp [List.takeWhile_cons, List.dropWhile_cons, hd, ih.1, ih.2]

theorem isHr_eq_true_iff (l : List Char) :
    isHr l = true ↔ ∃ post, l = '/' :: 'h' :: 'r' :: post := by
  constructor
  · intro h
    cases l with
    | nil => simp [isHr] at h
    | cons a l1 =>
      cases l1 with
      | nil => simp [isHr] at h
      | cons b l2 =>
        cases l2 with
        | nil => simp [isHr] at h
        | cons c post =>
          simp [isHr] at h
          obtain ⟨ha, hb, hc⟩ := h
          exact ⟨post, by rw [ha, hb, hc]⟩
  · rintro ⟨post, rfl⟩
    simp [isHr]

/-- Soundness of the single-position matcher: a successful match is a
well-formed capture followed by "/hr". -/
theorem rateMatchAt_some (t ds es : List Char)
    (h : rateMatchAt t = some (ds, es)) :
    goodCap ds es ∧
      ∃ post, t = '$' :: capChars ds es ++ '/' :: 'h' :: 'r' :: post := by
  cases t with
  | nil => simp [rateMatchAt] at h
  | cons c rest =>
    simp only [rateMatchAt] at h
    by_cases hc : c = '$'
    · rw [if_pos hc] at h
      subst hc
      by_cases hds : rest.takeWhile Char.isDigit = []
      · rw [if_pos hds] at h
        exact absurd h (by simp)
      · rw [if_neg hds] at h
        have hsplit : rest.takeWhile Char.isDigit ++
            rest.dropWhile Char.isDigit = rest :=
          List.takeWhile_append_dropWhile _ _
        have hdigits : ∀ x ∈ rest.takeWhile Char.isDigit,
            Char.isDigit x = true := fun x hx => List.mem_takeWhile_imp hx
        by_cases hdot : (rest.dropWhile Char.isDigit).head? = some '.'
        · rw [if_pos hdot] at h
          by_cases hcond :
              (((rest.dropWhile Char.isDigit).tail.takeWhile
                  Char.isDigit).length = 1 ∨
                ((rest.dropWhile Char.isDigit).tail.takeWhile
                  Char.isDigit).length = 2) ∧
              isHr ((rest.dropWhile Char.isDigit).tail.dropWhile
                Char.isDigit) = true
          · rw [if_pos hcond] at h
            have hds2 : ds = rest.takeWhile Char.isDigit := by
              have := Option.some.inj h
              exact (congrArg Prod.fst this).symm
            have hes2 : es =
                (rest.dropWhile Char.isDigit).tail.takeWhile Char.isDigit := by
              have := Option.some.inj h
              exact (congrArg Prod.snd this).symm
            obtain ⟨hlen, hhr⟩ := hcond
            obtain ⟨post, hpost⟩ := (isHr_eq_true_iff _).mp hhr
            have hesne : es ≠ [] := by
              rw [hes2]
              intro hne
              rw [hne] at hlen
              simp at hlen
            have htail : (rest.dropWhile Char.isDigit) =
                '.' :: (rest.dropWhile Char.isDigit).tail := by
              cases hdw : rest.dropWhile Char.isDigit with
              | nil => rw [hdw] at hdot; simp at hdot
              | cons a l =>
                rw [hdw] at hdot
                simp at hdot
                rw [hdot]
                simp
            have htail2 : (rest.dropWhile Char.isDigit).tail =
                es ++ '/' :: 'h' :: 'r' :: post := by
              rw [hes2, ← hpost]
              exact (List.takeWhile_append_dropWhile _ _).symm
            constructor
            · refine ⟨by rw [hds2]; exact hds, by rw [hds2]; exact hdigits, ?_⟩
              refine Or.inr ⟨by rw [hes2]; exact hlen, ?_⟩
              rw [hes2]
              exact fun x hx => List.mem_takeWhile_imp hx
            · refine ⟨post, ?_⟩
              have : rest = ds ++ '.' :: (es ++ '/' :: 'h' :: 'r' :: post) := by
                rw [← hsplit, hds2]
                congr 1
                rw [htail, htail2]
              rw [this]
              simp [capChars, hesne]
          · rw [if_neg hcond] at h
            exact absurd h (by simp)
        · rw [if_neg hdot] at h
          by_cases hhr : isHr (rest.dropWhile Char.isDigit) = true
          · rw [if_pos hhr] at h
            have hds2 : ds = rest.takeWhile Char.isDigit := by
              have := Option.some.inj h
              exact (congrArg Prod.fst this).symm
            have hes2 : es = [] := by
              have := Option.some.inj h
              exact (congrArg Prod.snd this).symm
            obtain ⟨post, hpost⟩ := (isHr_eq_true_iff _).mp hhr
            constructor
            · exact ⟨by rw [hds2]; exact hds,
                by rw [hds2]; exact hdigits, Or.inl hes2⟩
            · refine ⟨post, ?_⟩
              have : rest = ds ++ '/' :: 'h' :: 'r' :: post := by
                rw [← hsplit, hds2]
                congr 1
              rw [this]
              simp [capChars, hes2]
          · rw [if_neg hhr] at h
            exact absurd h (by simp)
    · rw [if_neg hc] at h
      exact absurd h (by simp)

/-- Completeness of the single-position matcher: where a well-formed
occurrence starts, the matcher succeeds. -/
theorem rateMatchAt_of_decompAt (t : List Char) (h : rateDecompAt t) :
    rateMatchAt t ≠ none := by
  obtain ⟨ds, es, post, ⟨hds, hdig, hes⟩, ht⟩ := h
  rcases hes with hes0 | ⟨hlen, hedig⟩
  · subst hes0
    have ht2 : t = '$' :: (ds ++ '/' :: 'h' :: 'r' :: post) := by
      rw [ht]; simp [capChars]
    have htw := takeWhile_digits_append ds ('/' :: 'h' :: 'r' :: post) hdig
      (fun c hc => by
        simp at hc
        subst hc
        decide)
    rw [ht2]
    simp [rateMatchAt, htw.1, htw.2, hds, isHr]
  · have hesne : es ≠ [] := by
      rcases hlen with h1 | h1 <;> (intro h0; rw [h0] at h1; simp at h1)
    have ht2 : t = '$' :: (ds ++ '.' :: (es ++ '/' :: 'h' :: 'r' :: post)) := by
      rw [ht]; simp [capChars, hesne]
    have htw := takeWhile_digits_append ds
      ('.' :: (es ++ '/' :: 'h' :: 'r' :: post)) hdig
      (fun c hc => by
        simp at hc
        subst hc
        decide)
    have htw2 := takeWhile_digits_append es ('/' :: 'h' :: 'r' :: post) hedig
      (fun c hc => by
        simp at hc
        subst hc
        decide)
    rw [ht2]
    simp [rateMatchAt, htw.1, htw.2, hds, htw2.1, htw2.2, hlen, isHr]

/-- The matcher fails at a position exactly when no well-formed
occurrence starts there. -/
theorem rateMatchAt_eq_none_iff (t : List Char) :
    rateMatchAt t = none ↔ ¬ rateDecompAt t := by
  constructor
  · intro h hd
    exact rateMatchAt_of_decompAt t hd h
  · intro hnd
    cases hm : rateMatchAt t with
    | none => rfl
    | some m =>
      obtain ⟨hgood, post, hpost⟩ := rateMatchAt_some t m.1 m.2 (by rw [hm])
      exact absurd ⟨m.1, m.2, post, hgood, hpost⟩ hnd

/-- The scan returns none exactly when the matcher fails at every
suffix position. -/
theorem extractRateCore_eq_none_iff : ∀ s : List Char,
    (extractRateCore s = none ↔ ∀ t, t <:+ s → rateMatchAt t = none)
  | [] => by
    constructor
    · intro _ t ht
      rw [List.suffix_nil.mp ht]
      rfl
    · intro _
      rfl
  | c :: rest => by
    have ih := extractRateCore_eq_none_iff rest
    cases h : rateMatchAt (c :: rest) with
    | some m =>
      constructor
      · intro hnone
        exfalso
        simp [extractRateCore, h] at hnone
      · intro hall
        exact absurd (hall (c :: rest) (List.suffix_refl _)) (by simp [h])
    | none =>
      constructor
      · intro hnone t ht
        have hrest : extractRateCore rest = none := by
          simpa [extractRateCore, h] using hnone
        rcases List.suffix_cons_iff.mp ht with heq | ht2
        · rw [heq]
          exact h
        · exact ih.mp hrest t ht2
      · intro hall
        have hrest : extractRateCore rest = none :=
          ih.mpr (fun t ht => hall t (List.suffix_cons_iff.mpr (Or.inr ht)))
        simp [extractRateCore, h, hrest]

/-- A successful scan is a match at the leftmost position where any
well-formed occurrence starts. -/
theorem extractRateCore_some_leftmost :
    ∀ (s : List Char) (m : List Char × List Char),
    extractRateCore s = some m →
    ∃ pre t, s = pre ++ t ∧ rateMatchAt t = some m ∧
      ∀ pre2 t2, s = pre2 ++ t2 → rateDecompAt t2 → pre.length ≤ pre2.length
  | [], m, h => by simp [extractRateCore] at h
  | c :: rest, m, h => by
    cases hm : rateMatchAt (c :: rest) with
    | some m2 =>
      have hmm : m2 = m := by simpa [extractRateCore, hm] using h
      subst hmm
      exact ⟨[], c :: rest, rfl, hm, fun pre2 t2 _ _ => Nat.zero_le _⟩
    | none =>
      have hrest : extractRateCore rest = some m := by
        simpa [extractRateCore, hm] using h
      obtain ⟨pre, t, heq, hmt, hmin⟩ :=
        extractRateCore_some_leftmost rest m hrest
      refine ⟨c :: pre, t, by rw [List.cons_append, heq], hmt, ?_⟩
      intro pre2 t2 heq2 hdec
      cases pre2 with
      | nil =>
        exfalso
        simp at heq2
        exact rateMatchAt_of_decompAt (c :: rest) (by rw [heq2]; exact hdec) hm
      | cons a pre2' =>
        simp at heq2
        have := hmin pre2' t2 heq2.2 hdec
        simpa using Nat.succ_le_succ this

theorem capValue_single_three : capValue ['3'] [] = 3 := by
  have h1 : digitsToNat ['3'] = 3 := by decide
  have h0 : digitsToNat [] = 0 := rfl
  unfold capValue
  rw [h1, h0]
  norm_num

theorem capValue_twelve_fifty : capValue ['1', '2'] ['5', '0'] = 25 / 2 := by
  have h1 : digitsToNat ['1', '2'] = 12 := by decide
  have h2 : digitsToNat ['5', '0'] = 50 := by decide
  unfold capValue
  rw [h1, h2]
  norm_num

theorem extractRate_cexSnippet : extractRate cexSnippet = some 3 := by
  have hcore : extractRateCore cexSnippet.data = some (['3'], []) := by decide
  unfold extractRate
  rw [hcore]
  simp [capValue_single_three]

theorem extractRate_rateSnippet : extractRate rateSnippet = some (25 / 2) := by
  have hcore : extractRateCore rateSnippet.data =
      some (['1', '2'], ['5', '0']) := by decide
  unfold extractRate
  rw [hcore]
  simp [capValue_twelve_fifty]

/-- C9 counterexample: the snippet "$3/hr $12.50/hr" contains a
substring of the form `$N/hr` with value 12.50 (shown by an explicit
decomposition with an empty tail), yet extractRate returns 3, because
the regex engine uses the leftmost match.  The claim as stated would
require 12.50 to be returned for this snippet. -/
theorem C9_counterexample :
    ("$3/hr ".data ++ '$' :: capChars ['1', '2'] ['5', '0'] ++
        '/' :: 'h' :: 'r' :: [] = cexSnippet.data) ∧
    goodCap ['1', '2'] ['5', '0'] ∧
    capValue ['1', '2'] ['5', '0'] = 25 / 2 ∧
    extractRate cexSnippet = some 3 ∧ (3 : ℚ) ≠ 25 / 2 :=
  ⟨by decide, ⟨by decide, by decide, Or.inr ⟨by decide, by decide⟩⟩,
    capValue_twelve_fifty, extractRate_cexSnippet, by norm_num⟩

/-- C9 (amended): extractRate returns null exactly when the snippet
contains no substring of the form `$N/hr` (N digits, optionally a point
and one or two decimal digits); when it returns a number, that number
is the parseFloat value of the leftmost such substring. -/
theorem C9_extractRate_leftmost (s : String) :
    (extractRate s = none ↔ ¬ RateSub s.data) ∧
    (∀ r, extractRate s = some r →
      ∃ pre ds es post, goodCap ds es ∧
        s.data = pre ++ '$' :: capChars ds es ++ '/' :: 'h' :: 'r' :: post ∧
        r = capValue ds es ∧
        ∀ pre2 t2, s.data = pre2 ++ t2 → rateDecompAt t2 →
          pre.length ≤ pre2.length) := by
  constructor
  · constructor
    · intro h hsub
      have hcore : extractRateCore s.data = none :=
        Option.map_eq_none'.mp h
      obtain ⟨t, hsuf, hdec⟩ := hsub
      exact rateMatchAt_of_decompAt t hdec
        ((extractRateCore_eq_none_iff s.data).mp hcore t hsuf)
    · intro hnsub
      apply Option.map_eq_none'.mpr
      apply (extractRateCore_eq_none_iff s.data).mpr
      intro t hsuf
      apply (rateMatchAt_eq_none_iff t).mpr
      intro hdec
      exact hnsub ⟨t, hsuf, hdec⟩
  · intro r hr
    obtain ⟨m, hm, hval⟩ := Option.map_eq_some'.mp hr
    obtain ⟨pre, t, heq, hmt, hmin⟩ :=
      extractRateCore_some_leftmost s.data m hm
    obtain ⟨hgood, post, hpost⟩ := rateMatchAt_some t m.1 m.2 (by rw [hmt])
    refine ⟨pre, m.1, m.2, post, hgood, ?_, hval.symm, hmin⟩
    rw [heq, hpost, List.append_assoc]

/-- C9 witness: on a snippet whose only rate substring is "$12.50/hr",
the amended theorem recovers both the returned value 12.50 and the
existence of the substring. -/
theorem C9_extractRate_leftmost_witness :
    extractRate rateSnippet = some (25 / 2) ∧ RateSub rateSnippet.data := by
  obtain ⟨pre, ds, es, post, hgood, heq, hval, hmin⟩ :=
    (C9_extractRate_leftmost rateSnippet).2 (25 / 2) extractRate_rateSnippet
  exact ⟨extractRate_rateSnippet,
    '$' :: capChars ds es ++ '/' :: 'h' :: 'r' :: post,
    ⟨pre, by rw [heq, List.append_assoc]⟩, ds, es, post, hgood, rfl⟩

/-! ## Lemmas about batch normalization of search results -/

theorem parsePlaces_ok_of_snippets : ∀ (places : List Place) (nb : String),
    (∀ p ∈ places, p.snippet ≠ none) →
    ∃ cs, parsePlaces nb places = Except.ok cs ∧ cs.length = places.length
  | [], _, _ => ⟨[], rfl, rfl⟩
  | p :: rest, nb, h => by
    obtain ⟨s, hs⟩ : ∃ s, p.snippet = some s := by
      cases hp : p.snippet with
      | none => exact absurd hp (h p (List.mem_cons_self _ _))
      | some s => exact ⟨s, rfl⟩
    obtain ⟨cs, hcs, hlen⟩ := parsePlaces_ok_of_snippets rest nb
      (fun q hq => h q (List.mem_cons_of_mem _ hq))
    refine
      ⟨(⟨p.title, p.address, extractRate s, extractHours s, nb, p.link⟩ :
          ParkingInfo) :: cs, ?_, by simp [hlen]⟩
    simp [parsePlaces, parsePlace, hs, hcs]

theorem parsePlaces_error_of_missing : ∀ (places : List Place) (nb : String),
    (∃ p ∈ places, p.snippet = none) →
    parsePlaces nb places = Except.error ()
  | [], _, h => by simp at h
  | p :: rest, nb, h => by
    rcases h with ⟨q, hq, hqs⟩
    rcases List.mem_cons.mp hq with rfl | hq2
    · simp [parsePlaces, parsePlace, hqs]
    · cases hp : p.snippet with
      | none => simp [parsePlaces, parsePlace, hp]
      | some s =>
        have hrec := parsePlaces_error_of_missing rest nb ⟨q, hq2, hqs⟩
        simp [parsePlaces, parsePlace, hp, hrec]

/-- C6 counterexample: a payload holding one fully parseable place and
one place with a missing snippet makes parseParkingDetails throw, so
saveParkingInfo aborts the whole call with the error envelope and
persists nothing — even though the parseable place alone normalizes
fine.  The claim says the other records would still be normalized and
persisted. -/
theorem C6_counterexample :
    parseParkingDetails (some mixedPayload) "Ballard" = Except.error () ∧
    saveParkingInfoRun (some mixedPayload) "Ballard" none =
      ([], SaveOutcome.errorEnvelope) ∧
    parsePlaces "Ballard" [placeLotA] =
      Except.ok
        [{ name := some "Lot A", address := some "1 Main St",
           hourlyRate := extractRate "Open 8am-6pm $5/hr",
           hours := extractHours "Open 8am-6pm $5/hr",
           neighborhood := "Ballard", sourceUrl := some "http://a" }] :=
  ⟨rfl, rfl, rfl⟩

/-- C6 (amended): each result is mapped independently and a batch whose
places all carry snippets normalizes wholesale (one candidate per
place, however malformed the snippet text is); but a single place with
a missing snippet throws inside the map, aborting normalization of the
entire batch: the call returns the error envelope and nothing is
persisted. -/
theorem C6_batch_abort_on_missing_snippet (places : List Place) (nb : String) :
    ((∀ p ∈ places, p.snippet ≠ none) →
      ∃ cs, parsePlaces nb places = Except.ok cs ∧
        cs.length = places.length) ∧
    ((∃ p ∈ places, p.snippet = none) →
      parsePlaces nb places = Except.error () ∧
      ∀ failAt, saveParkingInfoRun (some { places_results := some places })
        nb failAt = ([], SaveOutcome.errorEnvelope)) := by
  constructor
  · exact parsePlaces_ok_of_snippets places nb
  · intro hex
    have herr := parsePlaces_error_of_missing places nb hex
    refine ⟨herr, fun failAt => ?_⟩
    simp [saveParkingInfoRun, parseParkingDetails, herr]

/-- C6 witness: a single snippet-less place aborts its batch. -/
theorem C6_batch_abort_on_missing_snippet_witness :
    parsePlaces "Ballard" [placeNoSnippet] = Except.error () ∧
    saveParkingInfoRun (some { places_results := some [placeNoSnippet] })
      "Ballard" none = ([], SaveOutcome.errorEnvelope) := by
  have h := (C6_batch_abort_on_missing_snippet [placeNoSnippet] "Ballard").2
    ⟨placeNoSnippet, List.mem_cons_self _ _, rfl⟩
  exact ⟨h.1, h.2 none⟩

/-- C8: a payload that is null, lacks the results collection, or has an
empty results collection makes saveParkingInfo return the no-data
message with an empty action trace: no connection is acquired and no
row is written. -/
theorem C8_no_results_no_persistence (nb : String) (failAt : Option ℕ)
    (raw : Option SearchPayload)
    (h : raw = none ∨ raw = some { places_results := none } ∨
      raw = some { places_results := some [] }) :
    saveParkingInfoRun raw nb failAt = ([], SaveOutcome.noData nb) := by
  rcases h with rfl | rfl | rfl <;> rfl

/-- C8 witness. -/
theorem C8_no_results_no_persistence_witness :
    saveParkingInfoRun none "Queen Anne" none =
      ([], SaveOutcome.noData "Queen Anne") :=
  C8_no_results_no_persistence "Queen Anne" none none (Or.inl rfl)

/-- C10: for a nonempty places_results whose entries all carry
snippets, saveParkingInfo performs exactly one INSERT per entry inside
one BEGIN/COMMIT — no filtering, skipping, or deduplication — and the
success message reports exactly the number of entries. -/
theorem C10_one_row_per_entry (places : List Place) (nb : String)
    (hne : places ≠ []) (hsnip : ∀ p ∈ places, p.snippet ≠ none) :
    ∃ cs, parsePlaces nb places = Except.ok cs ∧
      cs.length = places.length ∧
      saveParkingInfoRun (some { places_results := some places }) nb none =
        ([SaveStep.connect, SaveStep.beginTx] ++
           cs.map SaveStep.insertCandidate ++
           [SaveStep.commitTx, SaveStep.release],
         SaveOutcome.saved places.length nb) := by
  obtain ⟨cs, hok, hlen⟩ := parsePlaces_ok_of_snippets places nb hsnip
  refine ⟨cs, hok, hlen, ?_⟩
  have hlen0 : ¬ cs.length = 0 := by
    rw [hlen]
    exact fun h0 => hne (List.length_eq_zero.mp h0)
  simp [saveParkingInfoRun, parseParkingDetails, hok, hlen0, hlen, hne]

/-- C10 witness: one entry with every optional field absent and an
empty snippet still becomes exactly one INSERT and a count of 1. -/
theorem C10_one_row_per_entry_witness :
    saveParkingInfoRun (some { places_results := some [blankPlace] })
      "Fremont" none =
      ([SaveStep.connect, SaveStep.beginTx,
        SaveStep.insertCandidate blankCandidate,
        SaveStep.commitTx, SaveStep.release],
       SaveOutcome.saved 1 "Fremont") := by
  obtain ⟨cs, hok, hlen, hrun⟩ := C10_one_row_per_entry [blankPlace] "Fremont"
    (by decide) (by decide)
  have heval : parsePlaces "Fremont" [blankPlace] =
      Except.ok [blankCandidate] := rfl
  rw [heval] at hok
  injection hok with hcs
  rw [← hcs] at hrun
  simpa using hrun

/-! ## Lemmas about the enriched_parking upsert -/

theorem upsertRecord_ids (U : List EnrichedRecord) (r : EnrichedRecord) :
    (upsertRecord U r).map EnrichedRecord.overpass_id =
      if r.overpass_id ∈ U.map EnrichedRecord.overpass_id
      then U.map EnrichedRecord.overpass_id
      else U.map EnrichedRecord.overpass_id ++ [r.overpass_id] := by
  unfold upsertRecord
  split
  · rw [List.map_map]
    apply List.map_congr_left
    intro x _
    by_cases hxe : x.overpass_id = r.overpass_id
    · simp [Function.comp, hxe]
    · simp [Function.comp, hxe]
  · simp

theorem upsertRecord_length (U : List EnrichedRecord) (r : EnrichedRecord) :
    (upsertRecord U r).length =
      if r.overpass_id ∈ U.map EnrichedRecord.overpass_id
      then U.length else U.length + 1 := by
  unfold upsertRecord
  split
  · simp
  · simp

theorem upsertRecord_overwrite (U : List EnrichedRecord) (r : EnrichedRecord)
    (hmem : r.overpass_id ∈ U.map EnrichedRecord.overpass_id) :
    ∀ x ∈ upsertRecord U r, x.overpass_id = r.overpass_id → x = r := by
  unfold upsertRecord
  rw [if_pos hmem]
  intro x hx hxe
  rcases List.mem_map.mp hx with ⟨y, _, hyx⟩
  by_cases hye : y.overpass_id = r.overpass_id
  · rw [if_pos hye] at hyx
    exact hyx.symm
  · rw [if_neg hye] at hyx
    rw [← hyx] at hxe
    exact absurd hxe hye

theorem upsertEnrichedFeatures_ids_mono :
    ∀ (rs U : List EnrichedRecord) (k : Int),
    (k ∈ U.map EnrichedRecord.overpass_id ∨
      k ∈ rs.map EnrichedRecord.overpass_id) →
    k ∈ (upsertEnrichedFeatures U rs).map EnrichedRecord.overpass_id
  | [], U, k, h => by
    rcases h with h | h
    · exact h
    · simp at h
  | r :: rs, U, k, h => by
    have hstep : ∀ k2 : Int,
        (k2 ∈ U.map EnrichedRecord.overpass_id ∨ k2 = r.overpass_id) →
        k2 ∈ (upsertRecord U r).map EnrichedRecord.overpass_id := by
      intro k2 hk2
      rw [upsertRecord_ids]
      split
      · next hmem =>
        rcases hk2 with hk2 | hk2
        · exact hk2
        · rw [hk2]; exact hmem
      · rcases hk2 with hk2 | hk2
        · simp [hk2]
        · simp [hk2]
    have hfold : upsertEnrichedFeatures U (r :: rs) =
        upsertEnrichedFeatures (upsertRecord U r) rs := by
      unfold upsertEnrichedFeatures
      rw [List.foldl_cons]
    rw [hfold]
    apply upsertEnrichedFeatures_ids_mono rs (upsertRecord U r) k
    rcases h with h | h
    · exact Or.inl (hstep k (Or.inl h))
    · simp at h
      rcases h with h | h
      · exact Or.inl (hstep k (Or.inr h))
      · exact Or.inr (List.mem_map.mpr (by
          rcases h with ⟨x, hx1, hx2⟩
          exact ⟨x, hx1, hx2⟩))

theorem upsertEnrichedFeatures_keyed :
    ∀ (rs U : List EnrichedRecord),
    (∀ k ∈ rs.map EnrichedRecord.overpass_id,
      k ∈ U.map EnrichedRecord.overpass_id) →
    (upsertEnrichedFeatures U rs).length = U.length ∧
      (upsertEnrichedFeatures U rs).map EnrichedRecord.overpass_id =
        U.map EnrichedRecord.overpass_id
  | [], U, _ => ⟨rfl, rfl⟩
  | r :: rs, U, h => by
    have hr : r.overpass_id ∈ U.map EnrichedRecord.overpass_id :=
      h r.overpass_id (by simp)
    have hids : (upsertRecord U r).map EnrichedRecord.overpass_id =
        U.map EnrichedRecord.overpass_id := by
      rw [upsertRecord_ids, if_pos hr]
    have hlen : (upsertRecord U r).length = U.length := by
      rw [upsertRecord_length, if_pos hr]
    have ih := upsertEnrichedFeatures_keyed rs (upsertRecord U r)
      (fun k hk => by
        rw [hids]
        exact h k (by simp [hk]))
    have hfold : upsertEnrichedFeatures U (r :: rs) =
        upsertEnrichedFeatures (upsertRecord U r) rs := by
      unfold upsertEnrichedFeatures
      rw [List.foldl_cons]
    rw [hfold]
    exact ⟨ih.1.trans hlen, ih.2.trans hids⟩

/-- The keys produced by normalization depend only on the features, not
on the source, timestamp, or confidence stamps. -/
theorem normalizeGeospatial_ids_eq (s1 t1 : String) (c1 : ℚ)
    (s2 t2 : String) (c2 : ℚ) : ∀ fs : List Feature,
    (normalizeGeospatial s1 t1 c1 fs).map EnrichedRecord.overpass_id =
      (normalizeGeospatial s2 t2 c2 fs).map EnrichedRecord.overpass_id
  | [] => rfl
  | f :: fs => by
    have ih := normalizeGeospatial_ids_eq s1 t1 c1 s2 t2 c2 fs
    unfold normalizeGeospatial at ih ⊢
    rw [List.filterMap_cons, List.filterMap_cons]
    cases hg : f.geometry with
    | none => simpa [featureToRecord, hg] using ih
    | some g =>
      by_cases ht : g.type = "Point"
      · cases hc : g.coordinates with
        | none => simpa [featureToRecord, hg, ht, hc] using ih
        | some coords => simpa [featureToRecord, hg, ht, hc] using ih
      · simpa [featureToRecord, hg, ht] using ih

/-- C4: fetchOverpassData persists only single-point features: a
feature whose geometry is absent, whose coordinates are absent, or
whose type is not Point contributes nothing; every persisted record
arises from a Point feature with coordinates; and the number of rows
upserted is at most the number of features in the payload. -/
theorem C4_point_geometry_filter (source retrievedAt : String)
    (confidence : ℚ) (fs : List Feature) :
    (normalizeGeospatial source retrievedAt confidence fs).length ≤
      fs.length ∧
    (∀ f ∈ fs,
      (f.geometry = none ∨
        ∀ g, f.geometry = some g →
          (g.type ≠ "Point" ∨ g.coordinates = none)) →
      featureToRecord source retrievedAt confidence f = none) ∧
    (∀ r ∈ normalizeGeospatial source retrievedAt confidence fs,
      ∃ f ∈ fs, ∃ g coords, f.geometry = some g ∧ g.type = "Point" ∧
        g.coordinates = some coords ∧
        featureToRecord source retrievedAt confidence f = some r) := by
  refine ⟨List.length_filterMap_le _ _, ?_, ?_⟩
  · intro f _ hbad
    cases hg : f.geometry with
    | none => simp [featureToRecord, hg]
    | some g =>
      rcases hbad with hbad | hbad
      · rw [hbad] at hg
        exact absurd hg (by simp)
      · rcases hbad g hg with hbt | hbc
        · simp [featureToRecord, hg, hbt]
        · by_cases ht : g.type = "Point"
          · simp [featureToRecord, hg, ht, hbc]
          · simp [featureToRecord, hg, ht]
  · intro r hr
    rcases List.mem_filterMap.mp hr with ⟨f, hf, hfr⟩
    refine ⟨f, hf, ?_⟩
    cases hg : f.geometry with
    | none => simp [featureToRecord, hg] at hfr
    | some g =>
      by_cases ht : g.type = "Point"
      · cases hc : g.coordinates with
        | none => simp [featureToRecord, hg, ht, hc] at hfr
        | some coords => exact ⟨g, coords, rfl, ht, hc, hfr⟩
      · simp [featureToRecord, hg, ht] at hfr

/-- C4 witness: the Polygon feature is skipped. -/
theorem C4_point_geometry_filter_witness :
    featureToRecord overpassSourceUrl "t" overpassConfidence
      polygonFeature = none := by
  apply (C4_point_geometry_filter overpassSourceUrl "t" overpassConfidence
    [polygonFeature]).2.1 polygonFeature (List.mem_cons_self _ _)
  refine Or.inr (fun g hg => ?_)
  have hpg : polygonFeature.geometry =
      some { type := "Polygon", coordinates := some [0] } := rfl
  rw [hpg] at hg
  injection hg with h
  rw [← h]
  exact Or.inl (by decide)

/-- C5: re-ingesting the same geospatial payload (with a fresh
retrieval timestamp) leaves the stored row count unchanged, and an
upsert whose key already exists rewrites that row wholesale — every
row carrying the key equals the new record — without adding a row. -/
theorem C5_idempotent_upsert (table : List EnrichedRecord)
    (t1 t2 : String) (fs : List Feature) :
    (upsertEnrichedFeatures
        (upsertEnrichedFeatures table
          (normalizeGeospatial overpassSourceUrl t1 overpassConfidence fs))
        (normalizeGeospatial overpassSourceUrl t2
          overpassConfidence fs)).length =
      (upsertEnrichedFeatures table
        (normalizeGeospatial overpassSourceUrl t1
          overpassConfidence fs)).length ∧
    (∀ (U : List EnrichedRecord) (r : EnrichedRecord),
      r.overpass_id ∈ U.map EnrichedRecord.overpass_id →
      (upsertRecord U r).length = U.length ∧
        ∀ x ∈ upsertRecord U r, x.overpass_id = r.overpass_id → x = r) := by
  constructor
  · apply (upsertEnrichedFeatures_keyed _ _ _).1
    intro k hk
    apply upsertEnrichedFeatures_ids_mono
    refine Or.inr ?_
    rw [normalizeGeospatial_ids_eq overpassSourceUrl t1 overpassConfidence
      overpassSourceUrl t2 overpassConfidence fs]
    exact hk
  · intro U r hmem
    exact ⟨by rw [upsertRecord_length, if_pos hmem],
      upsertRecord_overwrite U r hmem⟩

/-- C5 witness: upserting a record whose key 1 is already present
keeps the table at one row. -/
theorem C5_idempotent_upsert_witness : (upsertRecord [recA] recA2).length = 1 :=
  ((C5_idempotent_upsert [] "t1" "t2" []).2 [recA] recA2 (by decide)).1

/-- C1: the success message of fetchOverpassData reports
`geojsonData.features.length`, the total feature count of the payload,
not the number of rows written.  On a payload holding one Polygon
feature the call persists zero rows yet the message claims one spot
was saved, contradicting the claim that the reported count equals the
number of point-geometry features persisted. -/
theorem C1_reported_count_mismatch :
    (fetchOverpassRun (Except.ok [polygonFeature]) "2024-01-01T00:00:00Z"
        none []).2.1 = FetchOutcome.success 1 ∧
    (fetchOverpassRun (Except.ok [polygonFeature]) "2024-01-01T00:00:00Z"
        none []).2.2 = [] ∧
    normalizeGeospatial overpassSourceUrl "2024-01-01T00:00:00Z"
        overpassConfidence [polygonFeature] = [] ∧
    (1 : ℕ) ≠ 0 := by
  refine ⟨rfl, rfl, rfl, by decide⟩

/-- C2: on a statement failure inside saveParkingInfo's insert loop the
catch block returns the error envelope without ever issuing ROLLBACK
(or COMMIT), leaving the call's earlier write inside an open aborted
transaction; fetchOverpassData, by contrast, does roll back and leaves
the table unchanged on a failing insert. -/
theorem C2_missing_rollback :
    (saveParkingInfoRun (some twoGoodPlacesPayload) "Ballard"
        (some 1)).2 = SaveOutcome.errorEnvelope ∧
    SaveStep.beginTx ∈
      (saveParkingInfoRun (some twoGoodPlacesPayload) "Ballard" (some 1)).1 ∧
    SaveStep.rollbackTx ∉
      (saveParkingInfoRun (some twoGoodPlacesPayload) "Ballard" (some 1)).1 ∧
    SaveStep.commitTx ∉
      (saveParkingInfoRun (some twoGoodPlacesPayload) "Ballard" (some 1)).1 ∧
    FetchStep.rollbackTx ∈
      (fetchOverpassRun (Except.ok [pointFeature, pointFeature2]) "t"
        (some 1) []).1 ∧
    (fetchOverpassRun (Except.ok [pointFeature, pointFeature2]) "t"
        (some 1) []).2.2 = [] := by
  refine ⟨by decide, by decide, by decide, by decide, by decide, rfl⟩

/-- C3: on that same handled statement failure, saveParkingInfo never
releases the pooled client it acquired (release happens only on its
success path), while fetchOverpassData and getParkingDataForFrontend
release on every exit path via their finally blocks. -/
theorem C3_connection_leak :
    SaveStep.connect ∈
      (saveParkingInfoRun (some twoGoodPlacesPayload) "Ballard" (some 1)).1 ∧
    SaveStep.release ∉
      (saveParkingInfoRun (some twoGoodPlacesPayload) "Ballard" (some 1)).1 ∧
    FetchStep.release ∈ (fetchOverpassRun (Except.error ()) "t" none []).1 ∧
    FetchStep.release ∈
      (fetchOverpassRun (Except.ok [pointFeature]) "t" none []).1 ∧
    FetchStep.release ∈
      (fetchOverpassRun (Except.ok [pointFeature, pointFeature2]) "t"
        (some 0) []).1 ∧
    GetStep.release ∈ (getParkingDataForFrontendRun [] true).1 ∧
    GetStep.release ∈ (getParkingDataForFrontendRun [] false).1 := by
  refine ⟨by decide, by decide, by decide, by decide, by decide,
    by decide, by decide⟩

/-! ## Lemmas about the zod schema of fetchOverpassData -/

theorem zodNumber_ok_iff (v : Option JsVal) :
    (∃ n, zodNumber v = Except.ok n) ↔ acceptedNumberArg v := by
  constructor
  · rintro ⟨n, hn⟩
    cases v with
    | none => simp [zodNumber] at hn
    | some w =>
      cases w with
      | num m =>
        by_cases hm : JsNum.isNaN m = true
        · simp [zodNumber, hm] at hn
        · exact ⟨m, rfl, by simpa using hm⟩
      | str s => simp [zodNumber] at hn
      | boolean b => simp [zodNumber] at hn
  · rintro ⟨n, rfl, hn⟩
    exact ⟨n, by simp [zodNumber, hn]⟩

theorem zodNumber_err_iff (v : Option JsVal) :
    zodNumber v = Except.error () ↔ ¬ acceptedNumberArg v := by
  constructor
  · intro h hacc
    obtain ⟨n, hn⟩ := (zodNumber_ok_iff v).mpr hacc
    rw [h] at hn
    exact absurd hn (by simp)
  · intro hnacc
    cases hv : zodNumber v with
    | error e => rfl
    | ok n => exact absurd ((zodNumber_ok_iff v).mp ⟨n, hv⟩) hnacc

theorem zodNumberDefault_ok_iff (d : JsNum) (v : Option JsVal) :
    (∃ n, zodNumberDefault d v = Except.ok n) ↔
      (v = none ∨ acceptedNumberArg v) := by
  cases v with
  | none => simp [zodNumberDefault]
  | some w =>
    constructor
    · rintro ⟨n, hn⟩
      exact Or.inr ((zodNumber_ok_iff (some w)).mp ⟨n, hn⟩)
    · rintro (h | h)
      · exact absurd h (by simp)
      · exact (zodNumber_ok_iff (some w)).mpr h

/-- C7 counterexample: the schema accepts an infinite latitude and a
negative radius — the handler then runs, acquiring a connection and
attempting the fetch — although the claim says such inputs are rejected
as a ValidationError before any network or database call. -/
theorem C7_counterexample :
    validateFetchOverpassArgs (some (JsVal.num JsNum.posInf))
        (some (JsVal.num (JsNum.fin (-122))))
        (some (JsVal.num (JsNum.fin (-5)))) =
      Except.ok (JsNum.posInf, JsNum.fin (-122), JsNum.fin (-5)) ∧
    (fetchOverpassCall (some (JsVal.num JsNum.posInf))
        (some (JsVal.num (JsNum.fin (-122))))
        (some (JsVal.num (JsNum.fin (-5))))
        (Except.ok []) "t" none []).2.1 ≠ FetchOutcome.validationError ∧
    FetchStep.connect ∈
      (fetchOverpassCall (some (JsVal.num JsNum.posInf))
        (some (JsVal.num (JsNum.fin (-122))))
        (some (JsVal.num (JsNum.fin (-5))))
        (Except.ok []) "t" none []).1 := by
  refine ⟨rfl, by decide, by decide⟩

/-- C7 (amended): the schema accepts the call exactly when lat and lon
are present non-NaN numbers and radius is either omitted (defaulting
to 500) or a present non-NaN number — infiniteness of lat/lon and the
sign of radius are not checked — and a schema-rejected call performs no
database or network action at all. -/
theorem C7_validation_semantics (lat lon radius : Option JsVal) :
    ((∃ out, validateFetchOverpassArgs lat lon radius = Except.ok out) ↔
      (acceptedNumberArg lat ∧ acceptedNumberArg lon ∧
        (radius = none ∨ acceptedNumberArg radius))) ∧
    (validateFetchOverpassArgs lat lon radius = Except.error () →
      ∀ fetchRes retrievedAt failAt table,
        fetchOverpassCall lat lon radius fetchRes retrievedAt failAt table =
          ([], FetchOutcome.validationError, table)) := by
  constructor
  · constructor
    · rintro ⟨out, hout⟩
      unfold validateFetchOverpassArgs at hout
      cases h1 : zodNumber lat with
      | error e => rw [h1] at hout; exact absurd hout (by simp)
      | ok a =>
        rw [h1] at hout
        cases h2 : zodNumber lon with
        | error e => rw [h2] at hout; exact absurd hout (by simp)
        | ok b =>
          rw [h2] at hout
          cases h3 : zodNumberDefault (JsNum.fin 500) radius with
          | error e => rw [h3] at hout; exact absurd hout (by simp)
          | ok c =>
            exact ⟨(zodNumber_ok_iff lat).mp ⟨a, h1⟩,
              (zodNumber_ok_iff lon).mp ⟨b, h2⟩,
              (zodNumberDefault_ok_iff (JsNum.fin 500) radius).mp ⟨c, h3⟩⟩
    · rintro ⟨hlat, hlon, hrad⟩
      obtain ⟨a, h1⟩ := (zodNumber_ok_iff lat).mpr hlat
      obtain ⟨b, h2⟩ := (zodNumber_ok_iff lon).mpr hlon
      obtain ⟨c, h3⟩ :=
        (zodNumberDefault_ok_iff (JsNum.fin 500) radius).mpr hrad
      exact ⟨(a, b, c), by
        unfold validateFetchOverpassArgs
        rw [h1, h2, h3]⟩
  · intro herr fetchRes retrievedAt failAt table
    unfold fetchOverpassCall
    rw [herr]

/-- C7 witness: a call with all arguments missing is rejected by the
schema and performs nothing. -/
theorem C7_validation_semantics_witness :
    fetchOverpassCall none none none (Except.ok []) "t" none [] =
      ([], FetchOutcome.validationError, []) :=
  (C7_validation_semantics none none none).2 rfl (Except.ok []) "t" none []

end ParkNav
